import Mathlib

/-!
Shallow embedding of the versioned artifact store of `temporal-workflow-cli`.

The repository stores workflow deployment artifacts in an object store
(MinIO) under a flat key namespace partitioned with `/`:

  workflowName/latest                    -> UTF-8 versionId (plain text)
  workflowName/versionId/bundle.zip      -> opaque archive bytes
  workflowName/versionId/metadata.json   -> JSON metadata record

We model the bucket as an association list from keys to object contents and
translate the operations of `src/services/minio.ts` (`uploadWorkflow`,
`listVersions`, `getLatestVersion`, `getMetadata`, `deleteVersion`,
`setLatestVersion`), the packager's `generateVersion` and `createMetadata`,
and the commands `rollback`, `deleteWorkflow` and the conflict-checking part
of `deploy`.  Object keys are manipulated at the character-list level so
that every operation is executable by kernel reduction.
-/

namespace WorkflowCLI

/-- Trigger kinds of a workflow (`WorkflowConfigSchema.trigger.type`). -/
inductive TriggerType where
  | schedule
  | polling
  | webhook
  | manual
deriving DecidableEq

/-- A workflow trigger: its type together with an opaque serialized
configuration record (the zod schema keeps `config` optional and opaque). -/
structure Trigger where
  type : TriggerType
  config : Option String
deriving DecidableEq

/-- The metadata record stored alongside a bundle
(`WorkflowMetadataSchema` in `src/types`).  The TypeScript field
`namespace` is a Lean keyword, hence `nspace`. -/
structure WorkflowMetadata where
  name : String
  version : String
  nspace : String
  taskQueue : String
  trigger : Trigger
  deployedAt : String
  deployedBy : Option String
  checksum : String
deriving DecidableEq

/-- A workflow's deployment configuration (`WorkflowConfigSchema`). -/
structure WorkflowConfig where
  name : String
  nspace : String
  taskQueue : String
  trigger : Trigger
deriving DecidableEq

/-- Content of one stored object.  `bytes` is an opaque blob (the bundle),
`metaJson` is the JSON serialization of a metadata record (JSON.stringify
followed by JSON.parse round-trips such a record), and `text` is arbitrary
plain text: the latest pointer, or content that does not parse as a
metadata record. -/
inductive Content where
  | bytes (data : List Nat)
  | metaJson (m : WorkflowMetadata)
  | text (s : String)
deriving DecidableEq

/-- The bucket: an association list from object keys to contents. -/
abbrev Store := List (String × Content)

/-- Write an object, overwriting any existing one under the same key. -/
def putObject (s : Store) (k : String) (c : Content) : Store :=
  (k, c) :: s.filter (fun p => p.1 != k)

/-- Read an object. -/
def getObject (s : Store) (k : String) : Option Content :=
  (s.find? (fun p => p.1 == k)).map Prod.snd

/-- Remove an object (MinIO `removeObject`; absent keys are a no-op). -/
def removeObject (s : Store) (k : String) : Store :=
  s.filter (fun p => p.1 != k)

/-- `k.startsWith pre`, decided on the underlying character lists. -/
def strStarts (pre k : String) : Bool :=
  k.data.take pre.data.length == pre.data

theorem find?_filter_ne (s : Store) (k k' : String) (h : k' ≠ k) :
    (s.filter (fun p => p.1 != k)).find? (fun p => p.1 == k') =
      s.find? (fun p => p.1 == k') := by
  induction s with
  | nil => rfl
  | cons a t ih =>
    by_cases h1 : a.1 = k
    · have hk : (a.1 != k) = false := by simp [h1]
      have hk' : (a.1 == k') = false := by simp [h1, Ne.symm h]
      simp [List.filter_cons, hk, List.find?_cons, hk', ih]
    · have hk : (a.1 != k) = true := by simp [h1]
      by_cases h2 : a.1 = k'
      · have hk' : (a.1 == k') = true := by simp [h2]
        simp [List.filter_cons, hk, List.find?_cons, hk']
      · have hk' : (a.1 == k') = false := by simp [h2]
        simp [List.filter_cons, hk, List.find?_cons, hk', ih]

theorem getObject_put_self (s : Store) (k : String) (c : Content) :
    getObject (putObject s k c) k = some c := by
  simp [getObject, putObject, List.find?_cons]

theorem getObject_put_other (s : Store) (k k' : String) (c : Content)
    (h : k' ≠ k) : getObject (putObject s k c) k' = getObject s k' := by
  have hk : (k == k') = false := by simp [Ne.symm h]
  simp [getObject, putObject, List.find?_cons, hk, find?_filter_ne s k k' h]

/-- JavaScript `String.prototype.trim` whitespace test (the characters that
can actually occur around a stored pointer value). -/
def isJsWhitespace (c : Char) : Bool :=
  c == ' ' || c == '\t' || c == '\n' || c == '\r'

/-- JavaScript `String.prototype.trim`, modelled on the character list. -/
def trimStr (s : String) : String :=
  String.mk (((s.data.dropWhile isJsWhitespace).reverse.dropWhile
    isJsWhitespace).reverse)

/-- JavaScript `padStart(2, "0")` (the string length is the length of its
character list). -/
def padStart2 (s : String) : String :=
  String.mk (List.replicate (2 - s.data.length) '0' ++ s.data)

/-- Key of a version's bundle object: `workflowName/versionId/bundle.zip`. -/
def bundleKeyOf (workflowName version : String) : String :=
  workflowName ++ "/" ++ version ++ "/bundle.zip"

/-- Key of a version's metadata object:
`workflowName/versionId/metadata.json`. -/
def metadataKeyOf (workflowName version : String) : String :=
  workflowName ++ "/" ++ version ++ "/metadata.json"

/-- Key of a workflow's latest pointer: `workflowName/latest`. -/
def latestKeyOf (workflowName : String) : String :=
  workflowName ++ "/latest"

/-- The three writes issued by `uploadWorkflow`, in program order: Bundle,
then Metadata (enriched with the deployer identity), then Latest Pointer. -/
def uploadWrites (workflowName version : String) (bundle : List Nat)
    (metadata : WorkflowMetadata) (deployer : String) :
    List (String × Content) :=
  [(bundleKeyOf workflowName version, Content.bytes bundle),
   (metadataKeyOf workflowName version,
     Content.metaJson { metadata with deployedBy := some deployer }),
   (latestKeyOf workflowName, Content.text version)]

/-- Issue a sequence of writes, one object at a time, in list order. -/
def applyWrites (s : Store) (ws : List (String × Content)) : Store :=
  ws.foldl (fun st w => putObject st w.1 w.2) s

/-- `uploadWorkflow` of `src/services/minio.ts`: writes the bundle, the
enriched metadata and the latest pointer in that order, and returns the
bundle key. -/
def uploadWorkflow (s : Store) (workflowName version : String)
    (bundle : List Nat) (metadata : WorkflowMetadata) (deployer : String) :
    Store × String :=
  (applyWrites s (uploadWrites workflowName version bundle metadata deployer),
   bundleKeyOf workflowName version)

/-- Recursive `listObjects` under a key namespace: every stored key that
starts with `pre` (used by `deleteVersion`). -/
def listKeysUnder (s : Store) (pre : String) : List String :=
  (s.map Prod.fst).filter (fun k => strStarts pre k)

/-- `deleteVersion`: list every object key under the version's namespace
and remove each one in turn. -/
def deleteVersion (s : Store) (workflowName version : String) : Store :=
  let pre := workflowName ++ "/" ++ version ++ "/"
  let objects := listKeysUnder s pre
  objects.foldl (fun st k => removeObject st k) s

/-- The common-prefix entry that a non-recursive (delimited) `listObjects`
reports for one stored key, with the listing prefix already stripped and
the trailing `/` already removed — i.e. the version segment the stream
handler of `listVersions` extracts.  Keys with no `/` after the listing
prefix are plain objects (such as the latest pointer) and carry no
common-prefix entry. -/
def segmentOf (pre k : String) : Option String :=
  if strStarts pre k then
    let rest := k.data.drop pre.data.length
    if rest.contains '/' then
      some (String.mk (rest.takeWhile (fun c => c != '/')))
    else none
  else none

/-- All common-prefix segments under `pre`, each reported once (the object
store collapses keys sharing a common prefix into one listing entry). -/
def versionSegments (s : Store) (pre : String) : List String :=
  ((s.map Prod.fst).filterMap (segmentOf pre)).dedup

/-- The sort relation of JavaScript `Array.prototype.sort()` on strings:
lexicographic comparison of the character lists. -/
def strSortLe (a b : String) : Prop := ¬ b.data < a.data

instance : DecidableRel strSortLe := fun _ _ => instDecidableNot

/-- `listVersions`: the version segments under `workflowName/`, excluding
the literal `latest` marker and empty segments, sorted ascending by
`sort()` and then reversed (descending). -/
def listVersions (s : Store) (workflowName : String) : List String :=
  let pre := workflowName ++ "/"
  let versions := (versionSegments s pre).filter
    (fun v => v != "latest" && v != "")
  (List.insertionSort strSortLe versions).reverse

/-- Reading a stored object's content as text.  Pointer objects are only
ever written as `Content.text`; the other constructors are never read as
text by the modelled operations. -/
def readText : Content → String
  | Content.text s => s
  | Content.metaJson _ => ""
  | Content.bytes _ => ""

/-- `getLatestVersion`: read the latest pointer and trim it; `none` if the
pointer object is absent. -/
def getLatestVersion (s : Store) (workflowName : String) : Option String :=
  match getObject s (latestKeyOf workflowName) with
  | none => none
  | some c => some (trimStr (readText c))

/-- `JSON.parse` of a stored object interpreted as a metadata record:
succeeds exactly on well-formed metadata serializations. -/
def parseMetadata : Content → Option WorkflowMetadata
  | Content.metaJson m => some m
  | _ => none

/-- What a call to `getMetadata` does, as the program actually behaves:
`absent` (null) when the metadata object is missing — the awaited
`getObject` rejects and the surrounding try/catch returns null — `found`
when the object exists and its content parses, and `crash` when the
object exists but its content does not parse.  In that last case
`JSON.parse` throws inside the stream's `end` listener, which runs after
the function has already returned its promise un-awaited, so the
enclosing try/catch cannot catch the error; with no uncaught-exception
handler the process dies instead of returning null. -/
inductive MetaReadResult where
  | absent
  | found (m : WorkflowMetadata)
  | crash
deriving DecidableEq

/-- `getMetadata`: read the metadata object and parse it.  A missing
object yields `absent`; an existing object yields the parsed record, or
`crash` when its content fails to parse (see `MetaReadResult`). -/
def getMetadata (s : Store) (workflowName version : String) :
    MetaReadResult :=
  match getObject s (metadataKeyOf workflowName version) with
  | none => MetaReadResult.absent
  | some c =>
    match parseMetadata c with
    | some m => MetaReadResult.found m
    | none => MetaReadResult.crash

/-- `setLatestVersion`: unconditionally overwrite the latest pointer. -/
def setLatestVersion (s : Store) (workflowName version : String) : Store :=
  putObject s (latestKeyOf workflowName) (Content.text version)

/-- `rollback` of `src/commands/rollback.ts`, as a store transformer.  All
console output is dropped; every early `return` leaves the store as is.
A supplied empty-string target is falsy in JavaScript (`if (targetVersion)`)
and is treated like no target. -/
def rollback (s : Store) (workflowName : String)
    (targetVersion : Option String) : Store :=
  let versions := listVersions s workflowName
  let currentLatest := getLatestVersion s workflowName
  if versions.length = 0 then s
  else if versions.length = 1 then s
  else
    let explicitTarget : Option String :=
      match targetVersion with
      | some t => if t = "" then none else some t
      | none => none
    let newVersion? : Option String :=
      match explicitTarget with
      | some t => if versions.contains t then some t else none
      | none =>
        let currentIndex := versions.indexOf (currentLatest.getD "")
        if currentIndex = versions.length ∨
            currentIndex = versions.length - 1 then
          some (versions.getD 1 "")
        else some (versions.getD (currentIndex + 1) "")
    match newVersion? with
    | none => s
    | some newVersion =>
      if some newVersion = currentLatest then s
      else setLatestVersion s workflowName newVersion

/-- Options of the `delete` command. -/
structure DeleteOptions where
  version : Option String
  all : Bool
deriving DecidableEq

/-- `deleteWorkflow` of `src/commands/delete.ts`, as a store transformer.
With `--all` every version is deleted and the pointer is left orphaned;
with `--version v` the version's objects are deleted and, when `v` was the
current latest and other versions remain, the pointer is repaired to the
first entry of the remaining (descending) version list. -/
def deleteWorkflow (s : Store) (workflowName : String)
    (options : DeleteOptions) : Store :=
  let versions := listVersions s workflowName
  let currentLatest := getLatestVersion s workflowName
  if versions.length = 0 then s
  else if options.all then
    versions.foldl (fun st v => deleteVersion st workflowName v) s
  else
    match options.version with
    | some v =>
      if versions.contains v then
        let s1 := deleteVersion s workflowName v
        if some v = currentLatest ∧ versions.length > 1 then
          let remaining := versions.filter (fun w => w != v)
          setLatestVersion s1 workflowName (remaining.getD 0 "")
        else s1
      else s
    | none => s

/-- Options of the `deploy` command. -/
structure DeployOptions where
  version : Option String
  force : Bool
deriving DecidableEq

/-- `createMetadata` of the packager.  `deployedAt` stands for
`new Date().toISOString()` and `envUser` for
`process.env.USER || "unknown"`. -/
def createMetadata (config : WorkflowConfig)
    (version checksum deployedAt envUser : String) : WorkflowMetadata :=
  { name := config.name
    version := version
    nspace := config.nspace
    taskQueue := config.taskQueue
    trigger := config.trigger
    deployedAt := deployedAt
    deployedBy := some envUser
    checksum := checksum }

/-- Outcome of the store-relevant part of `deploy`. -/
inductive DeployOutcome where
  | refused
  | uploaded
deriving DecidableEq

/-- `options.version || generateVersion()`: an empty string is falsy. -/
def resolveVersion (options : DeployOptions) (generatedVersion : String) :
    String :=
  match options.version with
  | some v => if v = "" then generatedVersion else v
  | none => generatedVersion

/-- The store-relevant part of `deploy` in `src/commands/deploy.ts`:
resolve the version, refuse when it equals the current latest pointer and
`--force` was not given, otherwise build the metadata and upload.
Directory validation, bundling, API registration and cleanup touch no
stored object and are outside the store model; `generatedVersion`,
`bundle`, `checksum`, `deployedAt`, `envUser` and `deployer` stand for the
corresponding impure inputs. -/
def deploy (s : Store) (config : WorkflowConfig) (options : DeployOptions)
    (generatedVersion : String) (bundle : List Nat)
    (checksum deployedAt envUser deployer : String) :
    Store × DeployOutcome :=
  let version := resolveVersion options generatedVersion
  let latestVersion := getLatestVersion s config.name
  if latestVersion = some version ∧ options.force = false then
    (s, DeployOutcome.refused)
  else
    let metadata := createMetadata config version checksum deployedAt envUser
    ((uploadWorkflow s config.name version bundle metadata deployer).1,
      DeployOutcome.uploaded)

/-- A calendar instant as `generateVersion` reads it off a `Date` (local
time): `month` is `getMonth() + 1`, the rest are the plain accessors. -/
structure DateTime where
  year : Nat
  month : Nat
  day : Nat
  hours : Nat
  minutes : Nat
  seconds : Nat
deriving DecidableEq

/-- `generateVersion` of the packager: `YYYYMMDD-HHMMSS` with every field
except the year run through `padStart(2, "0")`. -/
def generateVersion (t : DateTime) : String :=
  Nat.repr t.year ++ padStart2 (Nat.repr t.month) ++
    padStart2 (Nat.repr t.day) ++ "-" ++ padStart2 (Nat.repr t.hours) ++
    padStart2 (Nat.repr t.minutes) ++ padStart2 (Nat.repr t.seconds)

/-- Field ranges of a calendar instant produced by a real clock (four-digit
year, valid month/day/time fields). -/
def DateTime.Valid (t : DateTime) : Prop :=
  1000 ≤ t.year ∧ t.year ≤ 9999 ∧ 1 ≤ t.month ∧ t.month ≤ 12 ∧
    1 ≤ t.day ∧ t.day ≤ 31 ∧ t.hours ≤ 23 ∧ t.minutes ≤ 59 ∧ t.seconds ≤ 59

instance (t : DateTime) : Decidable t.Valid := by
  unfold DateTime.Valid; infer_instance

/-- `t1` names a strictly earlier instant than `t2` (they differ by at
least one second): lexicographic order on the calendar fields. -/
def chronoLt (t1 t2 : DateTime) : Prop :=
  t1.year < t2.year ∨ (t1.year = t2.year ∧
    (t1.month < t2.month ∨ (t1.month = t2.month ∧
      (t1.day < t2.day ∨ (t1.day = t2.day ∧
        (t1.hours < t2.hours ∨ (t1.hours = t2.hours ∧
          (t1.minutes < t2.minutes ∨ (t1.minutes = t2.minutes ∧
            t1.seconds < t2.seconds)))))))))

instance (t1 t2 : DateTime) : Decidable (chronoLt t1 t2) := by
  unfold chronoLt; infer_instance

/-- The rollback target for a rollback without an explicit version, as the
specification describes it: the entry one past the current latest in the
descending version list, or the entry at index 1 when the pointer value is
absent from the list or is its last (oldest) entry. -/
def rollbackTargetSpec (versions : List String) (current : Option String) :
    String :=
  let idx := versions.indexOf (current.getD "")
  if idx = versions.length ∨ idx = versions.length - 1 then
    versions.getD 1 ""
  else versions.getD (idx + 1) ""

/-- A concrete metadata record used in closed scenarios. -/
def exMeta : WorkflowMetadata :=
  { name := "wf"
    version := "v1"
    nspace := "default"
    taskQueue := "q"
    trigger := { type := TriggerType.webhook, config := none }
    deployedAt := "2024-01-01T00:00:00.000Z"
    deployedBy := some "alice"
    checksum := "c1" }

/-- A concrete workflow configuration used in closed scenarios. -/
def exConfig : WorkflowConfig :=
  { name := "wf"
    nspace := "default"
    taskQueue := "q"
    trigger := { type := TriggerType.webhook, config := none } }

/-- Store after uploading version v1 of workflow wf to an empty bucket. -/
def exStoreV1 : Store := (uploadWorkflow [] "wf" "v1" [0] exMeta "alice").1

/-- Store after uploading v1 then v2 (latest points at v2). -/
def exStoreV12 : Store :=
  (uploadWorkflow exStoreV1 "wf" "v2" [1] exMeta "alice").1

/-- Store after uploading v1, v2, v3 in that order (latest points at v3). -/
def exStoreV123 : Store :=
  (uploadWorkflow exStoreV12 "wf" "v3" [2] exMeta "alice").1

/-- Single-version store whose latest pointer dangles (points at v9). -/
def exStoreDangling : Store := setLatestVersion exStoreV1 "wf" "v9"

/-- A store whose metadata object for wf/v1 exists but does not parse. -/
def exStoreBadMeta : Store :=
  [(metadataKeyOf "wf" "v1", Content.text "not-json")]

theorem foldl_removeObject (L : List String) (s : Store) :
    L.foldl (fun st k => removeObject st k) s =
      s.filter (fun p => !(L.contains p.1)) := by
  induction L generalizing s with
  | nil => simp
  | cons a t ih =>
    rw [List.foldl_cons, ih, removeObject, List.filter_filter]
    apply List.filter_congr
    intro p _
    by_cases h1 : p.1 = a <;> by_cases h2 : p.1 ∈ t <;> simp [h1, h2]

theorem deleteVersion_eq_filter (s : Store) (n v : String) :
    deleteVersion s n v =
      s.filter (fun p => !(strStarts (n ++ "/" ++ v ++ "/") p.1)) := by
  unfold deleteVersion
  rw [foldl_removeObject]
  apply List.filter_congr
  intro p hp
  have hm : p.1 ∈ s.map Prod.fst := List.mem_map_of_mem Prod.fst hp
  by_cases h : strStarts (n ++ "/" ++ v ++ "/") p.1 = true
  · have hmem : p.1 ∈ listKeysUnder s (n ++ "/" ++ v ++ "/") :=
      List.mem_filter.mpr ⟨hm, h⟩
    simp [h, hmem]
  · have hmem : p.1 ∉ listKeysUnder s (n ++ "/" ++ v ++ "/") := by
      intro hmem
      exact h ((List.mem_filter.mp hmem).2)
    simp [h, hmem]

theorem getObject_deleteVersion_under (s : Store) (n v key : String)
    (h : strStarts (n ++ "/" ++ v ++ "/") key = true) :
    getObject (deleteVersion s n v) key = none := by
  rw [deleteVersion_eq_filter]
  unfold getObject
  rw [Option.map_eq_none']
  rw [List.find?_eq_none]
  intro p hp hbeq
  have h1 := (List.mem_filter.mp hp).2
  have h2 : p.1 = key := by simpa using hbeq
  rw [h2, h] at h1
  simp at h1

theorem strStarts_append (p t : String) : strStarts p (p ++ t) = true := by
  simp [strStarts, String.data_append, List.take_left]

theorem latestKey_ne_versionKeys (n v : String) :
    latestKeyOf n ≠ bundleKeyOf n v ∧ latestKeyOf n ≠ metadataKeyOf n v := by
  constructor
  · intro h
    have hl := congrArg String.length h
    have h1 : ("/latest" : String).length = 7 := rfl
    have h2 : ("/" : String).length = 1 := rfl
    have h3 : ("/bundle.zip" : String).length = 11 := rfl
    simp only [latestKeyOf, bundleKeyOf, String.length_append,
      h1, h2, h3] at hl
    omega
  · intro h
    have hl := congrArg String.length h
    have h1 : ("/latest" : String).length = 7 := rfl
    have h2 : ("/" : String).length = 1 := rfl
    have h3 : ("/metadata.json" : String).length = 14 := rfl
    simp only [latestKeyOf, metadataKeyOf, String.length_append,
      h1, h2, h3] at hl
    omega

theorem strSortLe_iff (a b : String) : strSortLe a b ↔ a ≤ b := by
  constructor
  · intro h
    exact le_of_not_lt (fun hlt => h (String.lt_iff_toList_lt.mp hlt))
  · intro h hlt
    exact absurd (String.lt_iff_toList_lt.mpr hlt) (not_lt.mpr h)

theorem strSortLe_total : IsTotal String strSortLe :=
  ⟨fun a b => by
    rcases le_total a b with h | h
    · exact Or.inl ((strSortLe_iff a b).mpr h)
    · exact Or.inr ((strSortLe_iff b a).mpr h)⟩

theorem strSortLe_trans : IsTrans String strSortLe :=
  ⟨fun a b c h1 h2 => (strSortLe_iff a c).mpr
    (le_trans ((strSortLe_iff a b).mp h1) ((strSortLe_iff b c).mp h2))⟩

theorem listVersions_sorted_ge (s : Store) (n : String) :
    List.Sorted (· ≥ ·) (listVersions s n) := by
  unfold listVersions
  rw [List.Sorted, List.pairwise_reverse]
  exact (@List.sorted_insertionSort String strSortLe _
    strSortLe_total strSortLe_trans _).imp
    (fun h => (strSortLe_iff _ _).mp h)

theorem listVersions_nodup (s : Store) (n : String) :
    (listVersions s n).Nodup := by
  unfold listVersions
  rw [List.nodup_reverse]
  rw [(List.perm_insertionSort strSortLe _).nodup_iff]
  exact List.Nodup.filter _ (List.nodup_dedup _)

theorem listVersions_sorted_gt (s : Store) (n : String) :
    List.Sorted (· > ·) (listVersions s n) :=
  ((listVersions_sorted_ge s n).and (listVersions_nodup s n)).imp
    (fun h => lt_of_le_of_ne h.1 (Ne.symm h.2))

theorem takeWhile_no_slash {v : List Char} (h : '/' ∉ v) (r : List Char) :
    (v ++ '/' :: r).takeWhile (fun c => c != '/') = v := by
  induction v with
  | nil => simp [List.takeWhile]
  | cons a t ih =>
    have ha : a ≠ '/' := fun hv => h (hv ▸ List.mem_cons_self a t)
    have ht : '/' ∉ t := fun hv => h (List.mem_cons_of_mem a hv)
    simp only [List.cons_append, List.takeWhile]
    have : (a != '/') = true := by simp [ha]
    rw [this]
    simp [ih ht]

theorem contains_split (rest : List Char) (h : rest.contains '/' = true) :
    ∃ t, rest = rest.takeWhile (fun c => c != '/') ++ '/' :: t := by
  induction rest with
  | nil => simp at h
  | cons a cs ih =>
    by_cases ha : a = '/'
    · subst ha
      refine ⟨cs, ?_⟩
      simp [List.takeWhile]
    · have hcs : cs.contains '/' = true := by
        simp only [List.contains_cons] at h
        rcases Bool.or_eq_true_iff.mp h with h1 | h1
        · exact absurd (show '/' = a by simpa using h1).symm ha
        · exact h1
      obtain ⟨t, ht⟩ := ih hcs
      refine ⟨t, ?_⟩
      have : (a != '/') = true := by simp [ha]
      simp only [List.takeWhile, this]
      simp only [List.cons_append]
      exact congrArg (a :: ·) ht

theorem data_key_shape (n v r : String) :
    (n ++ "/" ++ v ++ "/" ++ r).data =
      (n ++ "/").data ++ (v.data ++ '/' :: r.data) := by
  simp only [String.data_append]
  simp [List.append_assoc]

theorem mem_listVersions_iff (s : Store) (n v : String) :
    v ∈ listVersions s n ↔
      v ≠ "latest" ∧ v ≠ "" ∧ '/' ∉ v.data ∧
        ∃ r : String, (n ++ "/" ++ v ++ "/" ++ r) ∈ s.map Prod.fst := by
  unfold listVersions
  rw [List.mem_reverse, (List.perm_insertionSort strSortLe _).mem_iff,
    List.mem_filter]
  constructor
  · rintro ⟨hmem, hcond⟩
    have hlat : v ≠ "latest" := by
      intro h; rw [h] at hcond; simp at hcond
    have hemp : v ≠ "" := by
      intro h; rw [h] at hcond; simp at hcond
    refine ⟨hlat, hemp, ?_, ?_⟩ <;>
      [skip;
       skip] <;> rw [versionSegments, List.mem_dedup, List.mem_filterMap] at hmem
    · obtain ⟨k, _, hk⟩ := hmem
      unfold segmentOf at hk
      by_cases hst : strStarts (n ++ "/") k = true
      · rw [if_pos hst] at hk
        by_cases hsl : (k.data.drop (n ++ "/").data.length).contains '/' = true
        · rw [if_pos hsl] at hk
          have hv : v.data =
              (k.data.drop (n ++ "/").data.length).takeWhile
                (fun c => c != '/') := by
            have := congrArg String.data (Option.some_injective _ hk)
            exact this.symm
          intro hmem
          rw [hv] at hmem
          have := List.mem_takeWhile_imp hmem
          simp at this
        · rw [if_neg hsl] at hk; exact absurd hk (by simp)
      · rw [if_neg hst] at hk; exact absurd hk (by simp)
    · obtain ⟨k, hks, hk⟩ := hmem
      unfold segmentOf at hk
      by_cases hst : strStarts (n ++ "/") k = true
      · rw [if_pos hst] at hk
        by_cases hsl : (k.data.drop (n ++ "/").data.length).contains '/' = true
        · rw [if_pos hsl] at hk
          have hv : v.data =
              (k.data.drop (n ++ "/").data.length).takeWhile
                (fun c => c != '/') := by
            have := congrArg String.data (Option.some_injective _ hk)
            exact this.symm
          obtain ⟨t, ht⟩ := contains_split _ hsl
          have hpre : k.data.take (n ++ "/").data.length = (n ++ "/").data := by
            simpa [strStarts] using hst
          refine ⟨String.mk t, ?_⟩
          have hkeq : n ++ "/" ++ v ++ "/" ++ String.mk t = k := by
            apply String.ext
            rw [data_key_shape]
            conv_rhs => rw [← List.take_append_drop
              ((n ++ "/").data.length) k.data]
            rw [hpre]
            congr 1
            rw [hv]
            exact ht.symm
          rw [hkeq]
          exact hks
        · rw [if_neg hsl] at hk; exact absurd hk (by simp)
      · rw [if_neg hst] at hk; exact absurd hk (by simp)
  · rintro ⟨hlat, hemp, hsl, r, hk⟩
    constructor
    · rw [versionSegments, List.mem_dedup, List.mem_filterMap]
      refine ⟨n ++ "/" ++ v ++ "/" ++ r, hk, ?_⟩
      have hassoc : n ++ "/" ++ v ++ "/" ++ r =
          (n ++ "/") ++ (v ++ ("/" ++ r)) := by
        simp [String.append_assoc]
      have hst : strStarts (n ++ "/") (n ++ "/" ++ v ++ "/" ++ r) = true := by
        rw [hassoc]; exact strStarts_append _ _
      unfold segmentOf
      rw [if_pos hst]
      have hdrop : (n ++ "/" ++ v ++ "/" ++ r).data.drop
          (n ++ "/").data.length = v.data ++ '/' :: r.data := by
        rw [data_key_shape, List.drop_left]
      rw [hdrop]
      have hcont : (v.data ++ '/' :: r.data).contains '/' = true := by
        simp [List.contains_cons]
      rw [if_pos hcont]
      rw [takeWhile_no_slash hsl]
    · simp [hlat, hemp]

theorem toDigitsCore_acc (b : Nat) : ∀ (f n : Nat) (l : List Char),
    Nat.toDigitsCore b f n l = Nat.toDigitsCore b f n [] ++ l := by
  intro f
  induction f with
  | zero => intro n l; simp [Nat.toDigitsCore]
  | succ g ih =>
    intro n l
    simp only [Nat.toDigitsCore]
    by_cases h : n / b = 0
    · rw [if_pos h, if_pos h]; rfl
    · rw [if_neg h, if_neg h]
      rw [ih (n / b) (Nat.digitChar (n % b) :: l),
        ih (n / b) [Nat.digitChar (n % b)]]
      simp

theorem toDigitsCore_fuel (b : Nat) (hb : 2 ≤ b) :
    ∀ (n f₁ f₂ : Nat) (l : List Char), n < f₁ → n < f₂ →
      Nat.toDigitsCore b f₁ n l = Nat.toDigitsCore b f₂ n l := by
  intro n
  induction n using Nat.strong_induction_on with
  | _ n ih =>
    intro f₁ f₂ l h1 h2
    obtain ⟨g₁, rfl⟩ : ∃ g, f₁ = g + 1 := ⟨f₁ - 1, by omega⟩
    obtain ⟨g₂, rfl⟩ : ∃ g, f₂ = g + 1 := ⟨f₂ - 1, by omega⟩
    simp only [Nat.toDigitsCore]
    by_cases h : n / b = 0
    · rw [if_pos h, if_pos h]
    · rw [if_neg h, if_neg h]
      have hn0 : 0 < n := by
        rcases Nat.eq_zero_or_pos n with h0 | h0
        · rw [h0] at h; simp at h
        · exact h0
      have hnb : n / b < n := Nat.div_lt_self hn0 (by omega)
      exact ih (n / b) hnb g₁ g₂ _ (by omega) (by omega)

theorem repr_data_lt10 {n : Nat} (h : n < 10) :
    (Nat.repr n).data = [Nat.digitChar n] := by
  unfold Nat.repr Nat.toDigits
  simp only [Nat.toDigitsCore]
  have h0 : n / 10 = 0 := Nat.div_eq_of_lt h
  rw [if_pos h0]
  have hm : n % 10 = n := Nat.mod_eq_of_lt h
  rw [hm]
  rfl

theorem repr_data_ge10 {n : Nat} (h : 10 ≤ n) :
    (Nat.repr n).data =
      (Nat.repr (n / 10)).data ++ [Nat.digitChar (n % 10)] := by
  unfold Nat.repr Nat.toDigits
  simp only [Nat.toDigitsCore]
  have h0 : ¬ n / 10 = 0 := by
    have : 0 < n / 10 := Nat.div_pos h (by omega)
    omega
  rw [if_neg h0]
  rw [toDigitsCore_acc 10 n (n / 10) [Nat.digitChar (n % 10)]]
  rw [toDigitsCore_fuel 10 (by omega) (n / 10) n (n / 10 + 1) []
    (Nat.div_lt_self (by omega) (by omega)) (Nat.lt_succ_self _)]
  rfl

theorem padStart2_repr_data {n : Nat} (h : n < 100) :
    (padStart2 (Nat.repr n)).data =
      [Nat.digitChar (n / 10), Nat.digitChar (n % 10)] := by
  by_cases h10 : n < 10
  · have hd := repr_data_lt10 h10
    have h0 : n / 10 = 0 := Nat.div_eq_of_lt h10
    have hm : n % 10 = n := Nat.mod_eq_of_lt h10
    unfold padStart2
    rw [hd, h0, hm]
    rfl
  · have hge : 10 ≤ n := by omega
    have hd := repr_data_ge10 hge
    rw [repr_data_lt10 (show n / 10 < 10 by omega)] at hd
    unfold padStart2
    rw [hd]
    rfl

theorem repr_data_year {y : Nat} (h1 : 1000 ≤ y) (h2 : y ≤ 9999) :
    (Nat.repr y).data =
      [Nat.digitChar (y / 1000), Nat.digitChar (y / 100 % 10),
       Nat.digitChar (y / 10 % 10), Nat.digitChar (y % 10)] := by
  have e1 := repr_data_ge10 (show 10 ≤ y by omega)
  have e2 := repr_data_ge10 (show 10 ≤ y / 10 by omega)
  have e3 := repr_data_ge10 (show 10 ≤ y / 10 / 10 by omega)
  have e4 := repr_data_lt10 (show y / 10 / 10 / 10 < 10 by omega)
  rw [e1, e2, e3, e4]
  have d1 : y / 10 / 10 / 10 = y / 1000 := by omega
  have d2 : y / 10 / 10 % 10 = y / 100 % 10 := by omega
  have d3 : y / 10 % 10 = y / 10 % 10 := rfl
  rw [d1, d2]
  simp

theorem digitChar_lt_digitChar :
    ∀ a < 10, ∀ b < 10, a < b → Nat.digitChar a < Nat.digitChar b := by
  decide

theorem digitChar_isDigit : ∀ a < 10, (Nat.digitChar a).isDigit = true := by
  decide

theorem lex_append_left : ∀ {s1 s2 : List Char},
    List.Lex (· < ·) s1 s2 → s1.length = s2.length →
    ∀ (t1 t2 : List Char), s1 ++ t1 < s2 ++ t2 := by
  intro s1 s2 h
  induction h with
  | nil => intro hlen; simp at hlen
  | rel hr => intro _ t1 t2; exact List.Lex.rel hr
  | cons _ ih =>
    intro hlen t1 t2
    exact List.Lex.cons (ih (by simpa using hlen) t1 t2)

theorem lex_append_right (l : List Char) {t1 t2 : List Char}
    (h : t1 < t2) : l ++ t1 < l ++ t2 := by
  induction l with
  | nil => exact h
  | cons c cs ih => exact List.Lex.cons ih

theorem twoDigitBlock_lt {a b : Nat} (hb : b < 100) (hab : a < b)
    (t1 t2 : List Char) :
    Nat.digitChar (a / 10) :: Nat.digitChar (a % 10) :: t1 <
      Nat.digitChar (b / 10) :: Nat.digitChar (b % 10) :: t2 := by
  by_cases h : a / 10 = b / 10
  · rw [h]
    exact List.Lex.cons (List.Lex.rel
      (digitChar_lt_digitChar _ (by omega) _ (by omega) (by omega)))
  · exact List.Lex.rel
      (digitChar_lt_digitChar _ (by omega) _ (by omega) (by omega))

theorem yearBlock_lt {y1 y2 : Nat} (ha1 : 1000 ≤ y1) (ha2 : y1 ≤ 9999)
    (hb1 : 1000 ≤ y2) (hb2 : y2 ≤ 9999) (h : y1 < y2) (t1 t2 : List Char) :
    (Nat.repr y1).data ++ t1 < (Nat.repr y2).data ++ t2 := by
  rw [repr_data_year ha1 ha2, repr_data_year hb1 hb2]
  simp only [List.cons_append, List.nil_append]
  by_cases h1 : y1 / 1000 = y2 / 1000
  · rw [h1]
    by_cases h2 : y1 / 100 % 10 = y2 / 100 % 10
    · rw [h2]
      by_cases h3 : y1 / 10 % 10 = y2 / 10 % 10
      · rw [h3]
        exact List.Lex.cons (List.Lex.cons (List.Lex.cons (List.Lex.rel
          (digitChar_lt_digitChar _ (by omega) _ (by omega) (by omega)))))
      · exact List.Lex.cons (List.Lex.cons (List.Lex.rel
          (digitChar_lt_digitChar _ (by omega) _ (by omega) (by omega))))
    · exact List.Lex.cons (List.Lex.rel
        (digitChar_lt_digitChar _ (by omega) _ (by omega) (by omega)))
  · exact List.Lex.rel
      (digitChar_lt_digitChar _ (by omega) _ (by omega) (by omega))

theorem generateVersion_data {t : DateTime} (h : t.Valid) :
    (generateVersion t).data =
      (Nat.repr t.year).data ++
        Nat.digitChar (t.month / 10) :: Nat.digitChar (t.month % 10) ::
        Nat.digitChar (t.day / 10) :: Nat.digitChar (t.day % 10) :: '-' ::
        Nat.digitChar (t.hours / 10) :: Nat.digitChar (t.hours % 10) ::
        Nat.digitChar (t.minutes / 10) :: Nat.digitChar (t.minutes % 10) ::
        Nat.digitChar (t.seconds / 10) ::
        [Nat.digitChar (t.seconds % 10)] := by
  obtain ⟨_, _, _, hmo, _, hd, hh, hmi, hs⟩ := h
  unfold generateVersion
  simp only [String.data_append]
  rw [padStart2_repr_data (show t.month < 100 by omega),
    padStart2_repr_data (show t.day < 100 by omega),
    padStart2_repr_data (show t.hours < 100 by omega),
    padStart2_repr_data (show t.minutes < 100 by omega),
    padStart2_repr_data (show t.seconds < 100 by omega)]
  simp [List.append_assoc]

/-- Claim C8: `deleteVersion` is idempotent: deleting the same
(name, version) twice succeeds both times; the second call finds no object
keys left under the version's namespace (so it deletes nothing) and leaves
the store unchanged. -/
theorem deleteVersion_idempotent (s : Store) (n v : String) :
    deleteVersion (deleteVersion s n v) n v = deleteVersion s n v ∧
      listKeysUnder (deleteVersion s n v) (n ++ "/" ++ v ++ "/") = [] := by
  constructor
  · rw [deleteVersion_eq_filter (deleteVersion s n v) n v,
      deleteVersion_eq_filter s n v, List.filter_filter]
    simp [Bool.and_self]
  · unfold listKeysUnder
    rw [deleteVersion_eq_filter]
    rw [List.filter_eq_nil_iff]
    intro k hk
    simp only [List.mem_map] at hk
    obtain ⟨p, hp, rfl⟩ := hk
    have h2 := (List.mem_filter.mp hp).2
    simpa using h2

/-- Claim C5 (code behavior at the failing input): a metadata object that
exists but does not parse is not treated like a missing one.  Reading the
missing object wf/v1 from an empty store yields `absent` (null), but
reading the existing, unparsable wf/v1 object crashes: the parse error
thrown in the stream's end listener escapes the try/catch, so the caller
never receives null for unparsable content. -/
theorem getMetadata_unparsable_crashes :
    getMetadata exStoreBadMeta "wf" "v1" = MetaReadResult.crash ∧
      getMetadata [] "wf" "v1" = MetaReadResult.absent ∧
      getMetadata exStoreBadMeta "wf" "v1" ≠ getMetadata [] "wf" "v1" := by
  decide

/-- Claim C10: when fewer than two versions are listed, `rollback` returns
before choosing a target and leaves every stored object unchanged — even
when an explicit existing target different from the current latest was
supplied, and even when the latest pointer dangles. -/
theorem rollback_short_circuit (s : Store) (n : String)
    (target : Option String) (h : (listVersions s n).length < 2) :
    rollback s n target = s := by
  unfold rollback
  by_cases h0 : (listVersions s n).length = 0
  · rw [if_pos h0]
  · have h1 : (listVersions s n).length = 1 := by omega
    rw [if_neg h0, if_pos h1]

theorem rollback_short_circuit_witness :
    (listVersions exStoreDangling "wf").length < 2 ∧
      "v1" ∈ listVersions exStoreDangling "wf" ∧
      getLatestVersion exStoreDangling "wf" = some "v9" ∧
      rollback exStoreDangling "wf" (some "v1") = exStoreDangling :=
  ⟨by decide, by decide, by decide,
    rollback_short_circuit exStoreDangling "wf" (some "v1") (by decide)⟩

theorem strStarts_bundleKey (n v : String) :
    strStarts (n ++ "/" ++ v ++ "/") (bundleKeyOf n v) = true := by
  have h : bundleKeyOf n v = (n ++ "/" ++ v ++ "/") ++ "bundle.zip" := by
    apply String.ext
    simp only [bundleKeyOf, String.data_append]
    simp [List.append_assoc]
  rw [h]
  exact strStarts_append _ _

theorem strStarts_metadataKey (n v : String) :
    strStarts (n ++ "/" ++ v ++ "/") (metadataKeyOf n v) = true := by
  have h : metadataKeyOf n v = (n ++ "/" ++ v ++ "/") ++ "metadata.json" := by
    apply String.ext
    simp only [metadataKeyOf, String.data_append]
    simp [List.append_assoc]
  rw [h]
  exact strStarts_append _ _

/-- Claim C1: `uploadWorkflow` issues exactly three writes in this order —
Bundle object, Metadata object, Latest Pointer — and an upload interrupted
at or before any step prior to the pointer write leaves the latest pointer
and every object outside the new version's namespace (in particular every
previously committed version's objects) exactly as they were. -/
theorem uploadWorkflow_order_and_partial_safety (s : Store) (n v : String)
    (b : List Nat) (m : WorkflowMetadata) (dep : String)
    (hn : n ≠ "") (hv : v ≠ "") :
    uploadWrites n v b m dep =
      [(bundleKeyOf n v, Content.bytes b),
       (metadataKeyOf n v,
         Content.metaJson { m with deployedBy := some dep }),
       (latestKeyOf n, Content.text v)] ∧
    (uploadWorkflow s n v b m dep).1 =
      applyWrites s (uploadWrites n v b m dep) ∧
    ∀ k, k < 3 → ∀ key,
      (key = latestKeyOf n ∨ strStarts (n ++ "/" ++ v ++ "/") key = false) →
      getObject (applyWrites s ((uploadWrites n v b m dep).take k)) key =
        getObject s key := by
  refine ⟨rfl, rfl, ?_⟩
  intro k hk key hkey
  have hkb : key ≠ bundleKeyOf n v := by
    rcases hkey with h | h
    · rw [h]; exact (latestKey_ne_versionKeys n v).1
    · intro he
      rw [he, strStarts_bundleKey n v] at h
      simp at h
  have hkm : key ≠ metadataKeyOf n v := by
    rcases hkey with h | h
    · rw [h]; exact (latestKey_ne_versionKeys n v).2
    · intro he
      rw [he, strStarts_metadataKey n v] at h
      simp at h
  interval_cases k
  · rfl
  · exact getObject_put_other s (bundleKeyOf n v) key (Content.bytes b) hkb
  · rw [show applyWrites s ((uploadWrites n v b m dep).take 2) =
      putObject (putObject s (bundleKeyOf n v) (Content.bytes b))
        (metadataKeyOf n v)
        (Content.metaJson { m with deployedBy := some dep }) from rfl]
    rw [getObject_put_other _ _ _ _ hkm]
    exact getObject_put_other _ _ _ _ hkb

theorem uploadWorkflow_order_and_partial_safety_witness :
    ("wf" : String) ≠ "" ∧ ("v2" : String) ≠ "" ∧
      getObject (applyWrites exStoreV1
          ((uploadWrites "wf" "v2" [1] exMeta "alice").take 2))
          (latestKeyOf "wf") =
        getObject exStoreV1 (latestKeyOf "wf") ∧
      getObject (applyWrites exStoreV1
          ((uploadWrites "wf" "v2" [1] exMeta "alice").take 2))
          (bundleKeyOf "wf" "v1") =
        getObject exStoreV1 (bundleKeyOf "wf" "v1") :=
  ⟨by decide, by decide,
    (uploadWorkflow_order_and_partial_safety exStoreV1 "wf" "v2" [1] exMeta
        "alice" (by decide) (by decide)).2.2 2 (by omega)
      (latestKeyOf "wf") (Or.inl rfl),
    (uploadWorkflow_order_and_partial_safety exStoreV1 "wf" "v2" [1] exMeta
        "alice" (by decide) (by decide)).2.2 2 (by omega)
      (bundleKeyOf "wf" "v1") (Or.inr (by decide))⟩

/-- Claim C6 (counterexample): upload does not store the supplied record
verbatim — it overwrites `deployedBy` with the deployer identity — so when
the supplied record names a different deployer, `getMetadata` after
`upload` is not the supplied record. -/
theorem upload_getMetadata_not_identity :
    getMetadata (uploadWorkflow [] "wf" "v1" [0] exMeta "bob").1 "wf" "v1" ≠
      MetaReadResult.found exMeta := by decide

/-- Claim C6 (amended): upload then `getMetadata` returns the supplied
record with `deployedBy` replaced by the deployer identity; every other
field, in particular `checksum`, is unchanged. -/
theorem upload_getMetadata_roundtrip (s : Store) (n v : String)
    (b : List Nat) (m : WorkflowMetadata) (dep : String)
    (chk : List Nat → String) (hchk : m.checksum = chk b) :
    getMetadata (uploadWorkflow s n v b m dep).1 n v =
      MetaReadResult.found { m with deployedBy := some dep } ∧
    ∀ m', getMetadata (uploadWorkflow s n v b m dep).1 n v =
      MetaReadResult.found m' → m'.checksum = chk b := by
  have hget : getObject (uploadWorkflow s n v b m dep).1
      (metadataKeyOf n v) =
      some (Content.metaJson { m with deployedBy := some dep }) := by
    show getObject (putObject (putObject
      (putObject s (bundleKeyOf n v) (Content.bytes b))
      (metadataKeyOf n v)
      (Content.metaJson { m with deployedBy := some dep }))
      (latestKeyOf n) (Content.text v)) (metadataKeyOf n v) = _
    rw [getObject_put_other _ _ _ _
      (Ne.symm (latestKey_ne_versionKeys n v).2)]
    exact getObject_put_self _ _ _
  have h1 : getMetadata (uploadWorkflow s n v b m dep).1 n v =
      MetaReadResult.found { m with deployedBy := some dep } := by
    unfold getMetadata
    rw [hget]
    rfl
  refine ⟨h1, ?_⟩
  intro m' hm'
  rw [h1] at hm'
  injection hm' with h2
  rw [← h2]
  exact hchk

theorem upload_getMetadata_roundtrip_witness :
    getMetadata exStoreV1 "wf" "v1" =
      MetaReadResult.found { exMeta with deployedBy := some "alice" } :=
  (upload_getMetadata_roundtrip [] "wf" "v1" [0] exMeta "alice"
    (fun _ => "c1") rfl).1

/-- Claim C4 (counterexample): version v1 already has stored objects but
the latest pointer references v2; deploying v1 without force is not
refused and overwrites v1's stored bundle. -/
theorem deploy_overwrites_non_latest_existing :
    (deploy exStoreV12 exConfig ⟨some "v1", false⟩ "g" [9] "c" "t" "u"
        "d").2 = DeployOutcome.uploaded ∧
      getObject exStoreV12 (bundleKeyOf "wf" "v1") =
        some (Content.bytes [0]) ∧
      getObject (deploy exStoreV12 exConfig ⟨some "v1", false⟩ "g" [9] "c"
          "t" "u" "d").1 (bundleKeyOf "wf" "v1") =
        some (Content.bytes [9]) := by decide

/-- Claim C4 (amended): the deploy path refuses exactly when the resolved
version equals the current latest pointer value and force was not
requested, and on refusal no stored object is altered.  A version that
already has objects but is not the current latest is overwritten without
refusal. -/
theorem deploy_conflict_latest_only (s : Store) (cfg : WorkflowConfig)
    (opts : DeployOptions) (gen : String) (b : List Nat)
    (chk dAt envU dep : String) :
    ((deploy s cfg opts gen b chk dAt envU dep).2 = DeployOutcome.refused ↔
      getLatestVersion s cfg.name = some (resolveVersion opts gen) ∧
        opts.force = false) ∧
    (getLatestVersion s cfg.name = some (resolveVersion opts gen) ∧
        opts.force = false →
      (deploy s cfg opts gen b chk dAt envU dep).1 = s) := by
  unfold deploy
  by_cases h : getLatestVersion s cfg.name =
      some (resolveVersion opts gen) ∧ opts.force = false
  · rw [if_pos h]
    exact ⟨⟨fun _ => h, fun _ => rfl⟩, fun _ => rfl⟩
  · rw [if_neg h]
    refine ⟨⟨fun hc => ?_, fun hc => absurd hc h⟩, fun hc => absurd hc h⟩
    simp at hc

theorem deploy_conflict_latest_only_witness :
    (deploy exStoreV12 exConfig ⟨some "v2", false⟩ "g" [9] "c" "t" "u"
        "d").1 = exStoreV12 :=
  (deploy_conflict_latest_only exStoreV12 exConfig ⟨some "v2", false⟩ "g"
      [9] "c" "t" "u" "d").2 ⟨by decide, rfl⟩

/-- Claim C2: rollback without an explicit target, on a workflow with at
least two listed versions, ends with the latest pointer naming the entry
one past the current latest in the descending list, or the entry at index
1 when the pointer value is absent from the list or is its last (oldest)
entry: either the pointer object is overwritten with that target, or the
store is left unchanged because the pointer already reads it. -/
theorem rollback_no_target_previous (s : Store) (n : String)
    (h2 : 2 ≤ (listVersions s n).length) :
    getObject (rollback s n none) (latestKeyOf n) =
      some (Content.text
        (rollbackTargetSpec (listVersions s n) (getLatestVersion s n))) ∨
    (rollback s n none = s ∧
      getLatestVersion s n =
        some (rollbackTargetSpec (listVersions s n)
          (getLatestVersion s n))) := by
  have h0 : ¬ (listVersions s n).length = 0 := by omega
  have h1 : ¬ (listVersions s n).length = 1 := by omega
  unfold rollback rollbackTargetSpec
  rw [if_neg h0, if_neg h1]
  simp only []
  by_cases hc : (listVersions s n).indexOf
      ((getLatestVersion s n).getD "") = (listVersions s n).length ∨
      (listVersions s n).indexOf ((getLatestVersion s n).getD "") =
        (listVersions s n).length - 1
  · rw [if_pos hc, if_pos hc]
    simp only []
    by_cases hnoop : some ((listVersions s n).getD 1 "") =
        getLatestVersion s n
    · rw [if_pos hnoop]
      exact Or.inr ⟨rfl, hnoop.symm⟩
    · rw [if_neg hnoop]
      exact Or.inl (getObject_put_self _ _ _)
  · rw [if_neg hc, if_neg hc]
    simp only []
    by_cases hnoop : some ((listVersions s n).getD
        ((listVersions s n).indexOf ((getLatestVersion s n).getD "") + 1)
        "") = getLatestVersion s n
    · rw [if_pos hnoop]
      exact Or.inr ⟨rfl, hnoop.symm⟩
    · rw [if_neg hnoop]
      exact Or.inl (getObject_put_self _ _ _)

theorem rollback_no_target_previous_witness :
    2 ≤ (listVersions exStoreV123 "wf").length ∧
      getObject (rollback exStoreV123 "wf" none) (latestKeyOf "wf") =
        some (Content.text "v2") := by
  refine ⟨by decide, ?_⟩
  rcases rollback_no_target_previous exStoreV123 "wf" (by decide) with
    h | h
  · rw [h]; decide
  · exact absurd h.2 (by decide)

/-- Claim C3: deleting one listed version removes every object under that
version's namespace, and when the deleted version was the current latest
and other versions remain, the pointer is repaired to the first entry of
the remaining descending list — the lexicographically newest survivor,
which every other surviving version is at most. -/
theorem deleteWorkflow_single_newest_survivor (s : Store) (n v : String)
    (hv : v ∈ listVersions s n) :
    (∀ key, strStarts (n ++ "/" ++ v ++ "/") key = true →
      key ≠ latestKeyOf n →
      getObject (deleteWorkflow s n ⟨some v, false⟩) key = none) ∧
    (some v = getLatestVersion s n → 2 ≤ (listVersions s n).length →
      getObject (deleteWorkflow s n ⟨some v, false⟩) (latestKeyOf n) =
        some (Content.text
          (((listVersions s n).filter (fun w => w != v)).getD 0 "")) ∧
      ∀ w ∈ listVersions s n, w ≠ v →
        w ≤ ((listVersions s n).filter (fun w => w != v)).getD 0 "") := by
  have hne : ¬ (listVersions s n).length = 0 := by
    intro h0
    rw [List.length_eq_zero] at h0
    rw [h0] at hv
    simp at hv
  have hcont : (listVersions s n).contains v = true := by simp [hv]
  have hstep : deleteWorkflow s n ⟨some v, false⟩ =
      if (listVersions s n).contains v = true then
        (if some v = getLatestVersion s n ∧
            (listVersions s n).length > 1 then
          setLatestVersion (deleteVersion s n v) n
            (((listVersions s n).filter (fun w => w != v)).getD 0 "")
        else deleteVersion s n v)
      else s := by
    unfold deleteWorkflow
    rw [if_neg hne]
    rfl
  rw [hstep, if_pos hcont]
  constructor
  · intro key hks hkl
    by_cases hrep : some v = getLatestVersion s n ∧
        (listVersions s n).length > 1
    · rw [if_pos hrep]
      unfold setLatestVersion
      rw [getObject_put_other _ _ _ _ hkl]
      exact getObject_deleteVersion_under s n v key hks
    · rw [if_neg hrep]
      exact getObject_deleteVersion_under s n v key hks
  · intro hl hlen
    have hrep : some v = getLatestVersion s n ∧
        (listVersions s n).length > 1 := ⟨hl, by omega⟩
    rw [if_pos hrep]
    refine ⟨getObject_put_self _ _ _, ?_⟩
    intro w hw hwv
    have hwmem : w ∈ (listVersions s n).filter (fun w => w != v) :=
      List.mem_filter.mpr ⟨hw, by simp [hwv]⟩
    have hsorted : List.Sorted (· ≥ ·)
        ((listVersions s n).filter (fun w => w != v)) :=
      (listVersions_sorted_ge s n).filter _
    cases hrem : (listVersions s n).filter (fun w => w != v) with
    | nil => rw [hrem] at hwmem; simp at hwmem
    | cons a t =>
      rw [hrem] at hwmem hsorted
      rw [List.getD_cons_zero]
      rcases List.mem_cons.mp hwmem with rfl | hwt
      · exact le_refl _
      · exact List.rel_of_sorted_cons hsorted w hwt

theorem deleteWorkflow_single_newest_survivor_witness :
    getObject (deleteWorkflow exStoreV123 "wf" ⟨some "v3", false⟩)
        (latestKeyOf "wf") = some (Content.text "v2") ∧
      getObject (deleteWorkflow exStoreV123 "wf" ⟨some "v3", false⟩)
        (bundleKeyOf "wf" "v3") = none := by
  have h := deleteWorkflow_single_newest_survivor exStoreV123 "wf" "v3"
    (by decide)
  refine ⟨?_, ?_⟩
  · have h2 := (h.2 (by decide) (by decide)).1
    rw [h2]
    decide
  · exact h.1 (bundleKeyOf "wf" "v3") (by decide) (by decide)

/-- Claim C7: `listVersions` returns exactly the version segments stored
under the workflow's namespace — excluding the literal latest marker —
sorted strictly descending lexicographically; in particular, after
uploading v1, v2, v3 in that order it returns v3, v2, v1. -/
theorem listVersions_exact_sorted_desc (s : Store) (n : String) :
    List.Sorted (· > ·) (listVersions s n) ∧
    (∀ v, v ∈ listVersions s n ↔
      v ≠ "latest" ∧ v ≠ "" ∧ '/' ∉ v.data ∧
        ∃ r : String, (n ++ "/" ++ v ++ "/" ++ r) ∈ s.map Prod.fst) ∧
    listVersions exStoreV123 "wf" = ["v3", "v2", "v1"] :=
  ⟨listVersions_sorted_gt s n, fun v => mem_listVersions_iff s n v,
    by decide⟩

/-- Claim C9: for valid calendar instants `generateVersion` produces a
fixed-width 15-character string of shape YYYYMMDD-HHMMSS — digits
everywhere except the separator at index 8, with every field zero-padded —
and the codec is monotone: a strictly earlier instant (by at least one
second) yields a lexicographically strictly smaller string, so
lexicographic sort of generated version strings equals chronological
sort. -/
theorem generateVersion_shape_and_monotone (t1 t2 : DateTime)
    (h1 : t1.Valid) (h2 : t2.Valid) (hlt : chronoLt t1 t2) :
    (generateVersion t1).data.length = 15 ∧
    (generateVersion t1).data.getD 8 ' ' = '-' ∧
    (∀ i, i < 15 → i ≠ 8 →
      ((generateVersion t1).data.getD i ' ').isDigit = true) ∧
    generateVersion t1 < generateVersion t2 := by
  obtain ⟨ha1, ha2, ha3, ha4, ha5, ha6, ha7, ha8, ha9⟩ := h1
  obtain ⟨hb1, hb2, hb3, hb4, hb5, hb6, hb7, hb8, hb9⟩ := h2
  have hv1 : t1.Valid :=
    ⟨ha1, ha2, ha3, ha4, ha5, ha6, ha7, ha8, ha9⟩
  have hv2 : t2.Valid :=
    ⟨hb1, hb2, hb3, hb4, hb5, hb6, hb7, hb8, hb9⟩
  have hdata : (generateVersion t1).data =
      Nat.digitChar (t1.year / 1000) :: Nat.digitChar (t1.year / 100 % 10)
        :: Nat.digitChar (t1.year / 10 % 10) :: Nat.digitChar (t1.year % 10)
        :: Nat.digitChar (t1.month / 10) :: Nat.digitChar (t1.month % 10)
        :: Nat.digitChar (t1.day / 10) :: Nat.digitChar (t1.day % 10)
        :: '-' :: Nat.digitChar (t1.hours / 10)
        :: Nat.digitChar (t1.hours % 10) :: Nat.digitChar (t1.minutes / 10)
        :: Nat.digitChar (t1.minutes % 10)
        :: Nat.digitChar (t1.seconds / 10)
        :: [Nat.digitChar (t1.seconds % 10)] := by
    rw [generateVersion_data hv1, repr_data_year ha1 ha2]
    simp [List.cons_append]
  refine ⟨?_, ?_, ?_, ?_⟩
  · rw [hdata]; rfl
  · rw [hdata]; rfl
  · intro i hi h8
    rw [hdata]
    interval_cases i
    all_goals first
      | exact absurd rfl h8
      | exact digitChar_isDigit _ (by omega)
  · have hgoal : (generateVersion t1).data < (generateVersion t2).data := by
      rw [generateVersion_data hv1, generateVersion_data hv2]
      rcases hlt with hy | ⟨hy, hmo | ⟨hmo, hdy | ⟨hdy, hh | ⟨hh,
        hmi | ⟨hmi, hs⟩⟩⟩⟩⟩
      · exact yearBlock_lt ha1 ha2 hb1 hb2 hy _ _
      · rw [hy]
        exact lex_append_right _ (twoDigitBlock_lt (by omega) hmo _ _)
      · rw [hy, hmo]
        exact lex_append_right _ (List.Lex.cons (List.Lex.cons
          (twoDigitBlock_lt (by omega) hdy _ _)))
      · rw [hy, hmo, hdy]
        exact lex_append_right _ (List.Lex.cons (List.Lex.cons
          (List.Lex.cons (List.Lex.cons (List.Lex.cons
            (twoDigitBlock_lt (by omega) hh _ _))))))
      · rw [hy, hmo, hdy, hh]
        exact lex_append_right _ (List.Lex.cons (List.Lex.cons
          (List.Lex.cons (List.Lex.cons (List.Lex.cons (List.Lex.cons
            (List.Lex.cons (twoDigitBlock_lt (by omega) hmi _ _))))))))
      · rw [hy, hmo, hdy, hh, hmi]
        exact lex_append_right _ (List.Lex.cons (List.Lex.cons
          (List.Lex.cons (List.Lex.cons (List.Lex.cons (List.Lex.cons
            (List.Lex.cons (List.Lex.cons (List.Lex.cons
              (twoDigitBlock_lt (by omega) hs _ _))))))))))
    exact String.lt_iff_toList_lt.mpr hgoal

theorem generateVersion_shape_and_monotone_witness :
    generateVersion ⟨2024, 3, 1, 0, 0, 0⟩ <
        generateVersion ⟨2024, 3, 1, 0, 0, 1⟩ ∧
      (generateVersion ⟨2024, 3, 1, 0, 0, 0⟩).data.length = 15 := by
  have h := generateVersion_shape_and_monotone ⟨2024, 3, 1, 0, 0, 0⟩
    ⟨2024, 3, 1, 0, 0, 1⟩ (by decide) (by decide) (by decide)
  exact ⟨h.2.2.2, h.1⟩

end WorkflowCLI
